import Mathlib

/-!
# BasicSynth: the dynamic low-pass filter `DynFilterLP`

A shallow embedding of `src/DynFilter.h`.  The class `DynFilterLP` derives from
`BiQuadFilter` and aggregates an `EnvGenADSR`; on every sample it converts the
envelope level to an index of the sine table and recalculates the bi-quad
coefficients only when that index changes.

Conventions of the embedding.

* `AmpValue`, `FrqValue` and `double` are one linearly ordered field `α` with a
  floor function (`ℚ` for evaluation, `ℝ` for the trigonometric statements).
  Rounding of machine floating point is not represented.
* `int` is `Int`.  The only integer arithmetic of the class is
  `itableLength / 4` and `tndx + cosOffs`.
* `sinTable` is a pointer; it is embedded as a function from offsets to values.
* Mutation is explicit state passing: a method returns its result together
  with the next object state.
-/

namespace BasicSynth

/-! ## Collaborators declared outside `src/` -/

/-- Modelled from the spec: the base class `BiQuadFilter` (BiQuad.h is not under
src/).  Five coefficients, named as `DynFilterLP::Sample` assigns them, the
two-sample input and output history of spec section 4.3, and the gain. -/
structure BiQuadFilter (α : Type) where
  ampIn0 : α
  ampIn1 : α
  ampIn2 : α
  ampOut1 : α
  ampOut2 : α
  x1 : α
  x2 : α
  y1 : α
  y2 : α
  gain : α
deriving DecidableEq

/-- Modelled from the spec: `BiQuadFilter::Sample` (BiQuad.h is not under src/).
Section 4.3: output = in0*input + in1*x1 + in2*x2 - out1*y1 - out2*y2, then the
history shifts (x2 := x1, x1 := input, y2 := y1, y1 := output). -/
def BiQuadFilter.Sample {α : Type} [LinearOrderedField α]
    (f : BiQuadFilter α) (vin : α) : α × BiQuadFilter α :=
  let out := f.ampIn0 * vin + f.ampIn1 * f.x1 + f.ampIn2 * f.x2
    - f.ampOut1 * f.y1 - f.ampOut2 * f.y2
  (out, { f with x2 := f.x1, x1 := vin, y2 := f.y1, y1 := out })

/-- Modelled from the spec: `BiQuadFilter::Init` (BiQuad.h is not under src/).
Section 4.3: `Init(type, gain)` sets the overall gain multiplier; the first
argument touches none of the members kept here. -/
def BiQuadFilter.Init {α : Type} (f : BiQuadFilter α) (_ty fg : α) : BiQuadFilter α :=
  { f with gain := fg }

/-- Modelled from the spec: `BiQuadFilter::Copy` (BiQuad.h is not under src/).
Section 4.3: it copies coefficients, history and gain, which is every member of
the base object, so the destination becomes the source. -/
def BiQuadFilter.Copy {α : Type} (self _dst : BiQuadFilter α) : BiQuadFilter α :=
  self

/-- The member functions of `EnvGenADSR` that `DynFilterLP` calls.  EnvGenSeg.h
is not under src/, so they are parameters, over an arbitrary envelope state `E`,
definition record `D` and curve type `T`.
`Gen` advances the envelope one step and yields its level, `GetEnvDef` yields
the definition written to the caller's record, `Reset`, `Release` and `InitADSR`
yield the next envelope state. -/
structure EnvGenOps (α E D T : Type) where
  Gen : E → α × E
  GetEnvDef : E → D
  Reset : α → E → E
  Release : E → E
  InitADSR : α → α → α → α → α → α → α → T → E → E

/-- Modelled from the spec: `EnvGenADSR::Copy` (EnvGenSeg.h is not under src/).
Section 4.2: it deep-copies all segment parameters and the current state, so
the destination envelope becomes the source envelope. -/
def EnvGenCopy {E : Type} (self _dst : E) : E := self

/-- Modelled from the spec: the members of the global `synthParams` that the
constructor reads (SynthDefs.h is not under src/). -/
structure SynthConfig (α : Type) where
  sampleRate : α
  ftableLength : α
  itableLength : Int

/-! ## The class `DynFilterLP` -/

/-- The object state of `DynFilterLP`: the `BiQuadFilter` base and the private
members `env`, `frqTI`, `cosOffs`, `lastNdx`, `sinTable`. -/
structure DynFilterLP (α E : Type) extends BiQuadFilter α where
  env : E
  frqTI : α
  cosOffs : Int
  lastNdx : Int
  sinTable : Int → α

/-- The conversion `(int) x` of a floating value: the fractional part is
discarded, that is, rounding is toward zero.  (Values outside the range of
`int` are undefined in C++; the embedding keeps the mathematical integer.) -/
def castInt {α : Type} [LinearOrderedField α] [FloorRing α] (x : α) : Int :=
  if 0 ≤ x then Int.floor x else Int.ceil x

/-- The constructor `DynFilterLP()`.  The default-constructed base object and
envelope and the globals `wtSet.wavSet[WT_SIN]` and `synthParams` are inputs. -/
def DynFilterLP.new {α E : Type} [LinearOrderedField α]
    (base : BiQuadFilter α) (env : E) (wavSin : Int → α) (synthParams : SynthConfig α) :
    DynFilterLP α E :=
  { toBiQuadFilter := base
    env := env
    sinTable := wavSin
    frqTI := (synthParams.ftableLength / 2) / synthParams.sampleRate
    cosOffs := Int.tdiv synthParams.itableLength 4
    lastNdx := 0 }

/-- The three ways through `DynFilterLP::Sample`. -/
inductive Branch where
  | bypass
  | cached
  | recompute
deriving DecidableEq

/-- What one call of `DynFilterLP::Sample` does: the returned sample, the next
object state, the way taken and the offsets of `sinTable` that were read. -/
structure SampleResult (α E : Type) where
  out : α
  state : DynFilterLP α E
  branch : Branch
  reads : List Int

section Sample

variable {α E D T : Type} [LinearOrderedField α] [FloorRing α]

/-- The local `tndx` of `Sample`: `(int) (env.Gen() * frqTI)`. -/
def DynFilterLP.tndx (ops : EnvGenOps α E D T) (s : DynFilterLP α E) : Int :=
  castInt ((ops.Gen s.env).1 * s.frqTI)

/-- The local `c` of `Sample` for table offset `tndx`:
`sinTable[tndx+cosOffs] / sinTable[tndx]`. -/
def DynFilterLP.cotLookup (s : DynFilterLP α E) (tndx : Int) : α :=
  s.sinTable (tndx + s.cosOffs) / s.sinTable tndx

/-- The body of the `if (tndx != lastNdx)` block of `Sample`: the base object
with the five coefficients assigned from `c`.  `sqr2` is the constant of
SynthDefs.h (not under src/), the square root of two. -/
def lowPassCoef (sqr2 c : α) (f : BiQuadFilter α) : BiQuadFilter α :=
  let c2 := c * c
  let csqr2 := sqr2 * c
  let oned := 1 / (c2 + csqr2 + 1)
  { f with
    ampIn0 := oned
    ampIn1 := oned + oned
    ampIn2 := oned
    ampOut1 := (2 * (1 - c2)) * oned
    ampOut2 := (c2 - csqr2 + 1) * oned }

/-- One call `Sample(in)` of `DynFilterLP`, with the way taken and the table
reads recorded. -/
def DynFilterLP.SampleTraced (ops : EnvGenOps α E D T) (sqr2 : α)
    (s : DynFilterLP α E) (vin : α) : SampleResult α E :=
  let g := ops.Gen s.env
  let s0 : DynFilterLP α E := { s with env := g.2 }
  let tndx := castInt (g.1 * s.frqTI)
  if tndx < 0 ∨ tndx ≥ s.cosOffs then
    { out := vin, state := s0, branch := Branch.bypass, reads := [] }
  else if tndx ≠ s.lastNdx then
    let c := s.cotLookup tndx
    let r := BiQuadFilter.Sample (lowPassCoef sqr2 c s.toBiQuadFilter) vin
    { out := r.1
      state := { s0 with lastNdx := tndx, toBiQuadFilter := r.2 }
      branch := Branch.recompute
      reads := [tndx + s.cosOffs, tndx] }
  else
    let r := BiQuadFilter.Sample s.toBiQuadFilter vin
    { out := r.1
      state := { s0 with toBiQuadFilter := r.2 }
      branch := Branch.cached
      reads := [] }

/-- The method `AmpValue Sample(AmpValue in)`: the returned sample and the next
object state. -/
def DynFilterLP.Sample (ops : EnvGenOps α E D T) (sqr2 : α)
    (s : DynFilterLP α E) (vin : α) : α × DynFilterLP α E :=
  let r := s.SampleTraced ops sqr2 vin
  (r.out, r.state)

/-- The calls `Sample(in)` for each `in` of a sequence, in order: the results of
the calls and the final state. -/
def DynFilterLP.run (ops : EnvGenOps α E D T) (sqr2 : α) :
    DynFilterLP α E → List α → List (SampleResult α E) × DynFilterLP α E
  | s, [] => ([], s)
  | s, vin :: rest =>
    let r := s.SampleTraced ops sqr2 vin
    let rs := DynFilterLP.run ops sqr2 r.state rest
    (r :: rs.1, rs.2)

/-- The output sequence of `Sample` over an input sequence. -/
def DynFilterLP.outputs (ops : EnvGenOps α E D T) (sqr2 : α)
    (s : DynFilterLP α E) (ins : List α) : List α :=
  (s.run ops sqr2 ins).1.map SampleResult.out

/-- The ways taken by `Sample` over an input sequence. -/
def DynFilterLP.branches (ops : EnvGenOps α E D T) (sqr2 : α)
    (s : DynFilterLP α E) (ins : List α) : List Branch :=
  (s.run ops sqr2 ins).1.map SampleResult.branch

/-- The five coefficients of the filter, in the order in0, in1, in2, out1,
out2. -/
def BiQuadFilter.coefs {α : Type} (f : BiQuadFilter α) : α × α × α × α × α :=
  (f.ampIn0, f.ampIn1, f.ampIn2, f.ampOut1, f.ampOut2)

/-- The history of the filter, in the order x1, x2, y1, y2. -/
def BiQuadFilter.history {α : Type} (f : BiQuadFilter α) : α × α × α × α :=
  (f.x1, f.x2, f.y1, f.y2)

/-- The method `InitFilter(st, ar, al, dr, sl, rr, rl, t, fg)`: it calls
`BiQuadFilter::Init(0, fg)`, `env.InitADSR(...)` and `Reset(0)`. -/
def DynFilterLP.InitFilter (ops : EnvGenOps α E D T) (s : DynFilterLP α E)
    (st ar al dr sl rr rl : α) (t : T) (fg : α) : DynFilterLP α E :=
  let s1 : DynFilterLP α E := { s with toBiQuadFilter := s.toBiQuadFilter.Init 0 fg }
  let s2 : DynFilterLP α E := { s1 with env := ops.InitADSR st ar al dr sl rr rl t s1.env }
  { s2 with env := ops.Reset 0 s2.env }

/-- The method `Copy(fp)`: `BiQuadFilter::Copy(fp)` and `env.Copy(&fp->env)`.
Following the comment in the source, this object is the source and `fp` the
destination; the result is the destination after the call. -/
def DynFilterLP.Copy (self fp : DynFilterLP α E) : DynFilterLP α E :=
  { fp with
    toBiQuadFilter := BiQuadFilter.Copy self.toBiQuadFilter fp.toBiQuadFilter
    env := EnvGenCopy self.env fp.env }

/-- The method `GetEnvDef(e)`: `env.GetEnvDef(e)`.  The result is the record
`*e` after the call and the next object state. -/
def DynFilterLP.GetEnvDef (ops : EnvGenOps α E D T) (s : DynFilterLP α E) (_e : D) :
    D × DynFilterLP α E :=
  (ops.GetEnvDef s.env, s)

/-- The method `SetEnvDef(e)`: its body is `env.GetEnvDef(e)`.  The result is
the record `*e` after the call and the next object state. -/
def DynFilterLP.SetEnvDef (ops : EnvGenOps α E D T) (s : DynFilterLP α E) (_e : D) :
    D × DynFilterLP α E :=
  (ops.GetEnvDef s.env, s)

/-- The method `Reset(initPhs)`: `env.Reset(initPhs)`. -/
def DynFilterLP.Reset (ops : EnvGenOps α E D T) (s : DynFilterLP α E) (initPhs : α) :
    DynFilterLP α E :=
  { s with env := ops.Reset initPhs s.env }

/-- The method `Release()`: `env.Release()`. -/
def DynFilterLP.Release (ops : EnvGenOps α E D T) (s : DynFilterLP α E) :
    DynFilterLP α E :=
  { s with env := ops.Release s.env }

/-- The cache is coherent: the five coefficients are the low-pass formulas of
`Sample` evaluated at `c = sinTable[lastNdx+cosOffs] / sinTable[lastNdx]`. -/
def DynFilterLP.Coherent (sqr2 : α) (s : DynFilterLP α E) : Prop :=
  s.coefs = (lowPassCoef sqr2 (s.cotLookup s.lastNdx) s.toBiQuadFilter).coefs

end Sample

/-! ## Concrete inputs -/

/-- An envelope over any number type that plays a prescribed sequence of levels
and then holds the last one; `scriptEnv` below is this envelope over `ℚ`. -/
def scriptEnvOver (α : Type) [Zero α] : EnvGenOps α (List α) (List α) Unit where
  Gen := fun e =>
    match e with
    | [] => (0, [])
    | [a] => (a, [a])
    | a :: b :: r => (a, b :: r)
  GetEnvDef := fun e => e
  Reset := fun _ e => e
  Release := fun e => e
  InitADSR := fun _ _ _ _ _ _ _ _ e => e

/-- A freshly constructed filter over a given table, with `itableLength = 16`
and sample rate 8 (so `frqTI` is 1 and `cosOffs` is 4), a base object with
all members zero, and an envelope that will play the levels `lv`. -/
def freshOver {α : Type} [LinearOrderedField α] (tbl : Int → α) (lv : List α) :
    DynFilterLP α (List α) :=
  DynFilterLP.new
    { ampIn0 := 0, ampIn1 := 0, ampIn2 := 0, ampOut1 := 0, ampOut2 := 0,
      x1 := 0, x2 := 0, y1 := 0, y2 := 0, gain := 0 }
    lv tbl { sampleRate := 8, ftableLength := 16, itableLength := 16 }

/-- An envelope that plays a prescribed sequence of levels and then holds the
last one (an envelope that has reached its final segment holds its level).  The
state is the remaining sequence; the definition record is the state itself. -/
def scriptEnv : EnvGenOps ℚ (List ℚ) (List ℚ) Unit where
  Gen := fun e =>
    match e with
    | [] => (0, [])
    | [a] => (a, [a])
    | a :: b :: r => (a, b :: r)
  GetEnvDef := fun e => e
  Reset := fun _ e => e
  Release := fun e => e
  InitADSR := fun _ _ _ _ _ _ _ _ e => e

/-- A sixteen-entry table with rational values close to one cycle of a sine;
offsets outside the table read 0. -/
def wav16 (i : Int) : ℚ :=
  ([0, 3/8, 7/10, 9/10, 1, 9/10, 7/10, 3/8, 0, -3/8, -7/10, -9/10, -1, -9/10, -7/10, -3/8]
    : List ℚ).getD i.toNat 0

/-- Global parameters with a table of 16 entries and sample rate 8, so that
`frqTI` is 1 and `cosOffs` is 4. -/
def params16 : SynthConfig ℚ :=
  { sampleRate := 8, ftableLength := 16, itableLength := 16 }

/-- A base object with all members zero. -/
def zeroBiQuad : BiQuadFilter ℚ :=
  { ampIn0 := 0, ampIn1 := 0, ampIn2 := 0, ampOut1 := 0, ampOut2 := 0,
    x1 := 0, x2 := 0, y1 := 0, y2 := 0, gain := 0 }

/-- A freshly constructed filter over `wav16` whose envelope will play the
levels `lv`. -/
def fresh16 (lv : List ℚ) : DynFilterLP ℚ (List ℚ) :=
  DynFilterLP.new zeroBiQuad lv wav16 params16

/-- A source filter for `Copy`: constructed with an envelope that plays the
levels 2, 3, 3, ..., after one call `Sample(1)`.  Its cached index is 2 and its
coefficients are those of index 2. -/
def copySource : DynFilterLP ℚ (List ℚ) :=
  ((fresh16 [2, 3]).Sample scriptEnv (7/5) 1).2

/-- A destination filter for `Copy`: constructed with an envelope that holds
the level 3, after one call `Sample(1)`.  Its cached index is 3. -/
def copyDest : DynFilterLP ℚ (List ℚ) :=
  ((fresh16 [3]).Sample scriptEnv (7/5) 1).2

/-! ## The three ways through `Sample` -/

section Facts

variable {α E D T : Type} [LinearOrderedField α] [FloorRing α]

/-- The bypass way: an index outside the range leaves everything but the
envelope alone and reads nothing. -/
theorem SampleTraced_of_out_of_range (ops : EnvGenOps α E D T) (sqr2 : α)
    (s : DynFilterLP α E) (vin : α) (h : s.tndx ops < 0 ∨ s.tndx ops ≥ s.cosOffs) :
    s.SampleTraced ops sqr2 vin =
      { out := vin, state := { s with env := (ops.Gen s.env).2 },
        branch := Branch.bypass, reads := [] } := by
  unfold DynFilterLP.tndx at h
  simp only [DynFilterLP.SampleTraced, if_pos h]

/-- The recomputation way: an index in range that differs from the cached
one. -/
theorem SampleTraced_of_new_index (ops : EnvGenOps α E D T) (sqr2 : α)
    (s : DynFilterLP α E) (vin : α) (h0 : 0 ≤ s.tndx ops) (h1 : s.tndx ops < s.cosOffs)
    (h2 : s.tndx ops ≠ s.lastNdx) :
    s.SampleTraced ops sqr2 vin =
      { out := (BiQuadFilter.Sample
          (lowPassCoef sqr2 (s.cotLookup (s.tndx ops)) s.toBiQuadFilter) vin).1
        state :=
          { s with
            env := (ops.Gen s.env).2
            lastNdx := s.tndx ops
            toBiQuadFilter := (BiQuadFilter.Sample
              (lowPassCoef sqr2 (s.cotLookup (s.tndx ops)) s.toBiQuadFilter) vin).2 }
        branch := Branch.recompute
        reads := [s.tndx ops + s.cosOffs, s.tndx ops] } := by
  unfold DynFilterLP.tndx at h0 h1 h2 ⊢
  have hr : ¬ (castInt ((ops.Gen s.env).1 * s.frqTI) < 0
      ∨ castInt ((ops.Gen s.env).1 * s.frqTI) ≥ s.cosOffs) := by
    push_neg
    exact ⟨h0, h1⟩
  simp only [DynFilterLP.SampleTraced, if_neg hr, if_pos h2]

/-- The cached way: an index in range equal to the cached one. -/
theorem SampleTraced_of_same_index (ops : EnvGenOps α E D T) (sqr2 : α)
    (s : DynFilterLP α E) (vin : α) (h0 : 0 ≤ s.tndx ops) (h1 : s.tndx ops < s.cosOffs)
    (h2 : s.tndx ops = s.lastNdx) :
    s.SampleTraced ops sqr2 vin =
      { out := (BiQuadFilter.Sample s.toBiQuadFilter vin).1
        state :=
          { s with
            env := (ops.Gen s.env).2
            toBiQuadFilter := (BiQuadFilter.Sample s.toBiQuadFilter vin).2 }
        branch := Branch.cached
        reads := [] } := by
  unfold DynFilterLP.tndx at h0 h1 h2
  have hr : ¬ (castInt ((ops.Gen s.env).1 * s.frqTI) < 0
      ∨ castInt ((ops.Gen s.env).1 * s.frqTI) ≥ s.cosOffs) := by
    push_neg
    exact ⟨h0, h1⟩
  have hn : ¬ (castInt ((ops.Gen s.env).1 * s.frqTI) ≠ s.lastNdx) := by
    simpa using h2
  simp only [DynFilterLP.SampleTraced, if_neg hr, if_neg hn]

omit [FloorRing α] in
/-- The base filter's `Sample` does not touch the coefficients. -/
theorem BiQuadFilter.coefs_Sample (f : BiQuadFilter α) (vin : α) :
    (f.Sample vin).2.coefs = f.coefs := rfl

end Facts

/-! ## Properties of `Sample` -/

section Claims

variable {α E D T : Type} [LinearOrderedField α] [FloorRing α]

/-- C1: whenever the table index computed from the envelope's next level is
negative or at least `cosOffs`, `Sample` returns exactly its input sample: the
call takes the bypass way and yields a value, with nothing applied to it. -/
theorem Sample_out_of_range_returns_input (ops : EnvGenOps α E D T) (sqr2 : α)
    (s : DynFilterLP α E) (vin : α) (h : s.tndx ops < 0 ∨ s.tndx ops ≥ s.cosOffs) :
    (s.Sample ops sqr2 vin).1 = vin ∧
      (s.SampleTraced ops sqr2 vin).branch = Branch.bypass := by
  simp [DynFilterLP.Sample, SampleTraced_of_out_of_range ops sqr2 s vin h]

/-- C2: when the computed index is in range and differs from `lastNdx`, the
coefficients after `Sample` are in0 = denom, in1 = 2*denom, in2 = denom,
out1 = 2*(1 - c2)*denom, out2 = (c2 - cSqrt2 + 1)*denom, where
c = table[tndx+cosOffs] / table[tndx], c2 = c*c, cSqrt2 = sqr2*c and
denom = 1/(c2 + cSqrt2 + 1), and the cached index is the computed one. -/
theorem Sample_new_index_coefficients (ops : EnvGenOps α E D T) (sqr2 : α)
    (s : DynFilterLP α E) (vin : α) (h0 : 0 ≤ s.tndx ops) (h1 : s.tndx ops < s.cosOffs)
    (h2 : s.tndx ops ≠ s.lastNdx) :
    let c := s.sinTable (s.tndx ops + s.cosOffs) / s.sinTable (s.tndx ops)
    let c2 := c * c
    let cSqrt2 := sqr2 * c
    let denom := 1 / (c2 + cSqrt2 + 1)
    let s' := (s.Sample ops sqr2 vin).2
    s'.ampIn0 = denom ∧ s'.ampIn1 = 2 * denom ∧ s'.ampIn2 = denom ∧
      s'.ampOut1 = 2 * (1 - c2) * denom ∧ s'.ampOut2 = (c2 - cSqrt2 + 1) * denom ∧
      s'.lastNdx = s.tndx ops := by
  simp only [DynFilterLP.Sample, SampleTraced_of_new_index ops sqr2 s vin h0 h1 h2,
    BiQuadFilter.Sample, lowPassCoef, DynFilterLP.cotLookup]
  refine ⟨trivial, ?_, trivial, trivial, trivial, trivial⟩
  ring

/-- C3: for two consecutive calls of `Sample` whose computed index is the same,
the five coefficients after the second call are those after the first; and a
call whose computed index equals `lastNdx` leaves the five coefficients and
`lastNdx` as they were. -/
theorem Sample_same_index_keeps_coefficients (ops : EnvGenOps α E D T) (sqr2 : α)
    (s : DynFilterLP α E) (vin vin2 : α) :
    (s.tndx ops = s.lastNdx →
      (s.Sample ops sqr2 vin).2.coefs = s.coefs ∧
        (s.Sample ops sqr2 vin).2.lastNdx = s.lastNdx) ∧
    ((s.Sample ops sqr2 vin).2.tndx ops = s.tndx ops →
      ((s.Sample ops sqr2 vin).2.Sample ops sqr2 vin2).2.coefs =
        (s.Sample ops sqr2 vin).2.coefs) := by
  have key : ∀ (u : DynFilterLP α E) (w : α), u.tndx ops = u.lastNdx →
      (u.Sample ops sqr2 w).2.coefs = u.coefs ∧ (u.Sample ops sqr2 w).2.lastNdx = u.lastNdx := by
    intro u w h
    by_cases hr : u.tndx ops < 0 ∨ u.tndx ops ≥ u.cosOffs
    · simp [DynFilterLP.Sample, SampleTraced_of_out_of_range ops sqr2 u w hr]
    · push_neg at hr
      simp [DynFilterLP.Sample, SampleTraced_of_same_index ops sqr2 u w hr.1 hr.2 h,
        BiQuadFilter.Sample, BiQuadFilter.coefs]
  refine ⟨key s vin, fun h => ?_⟩
  by_cases hr : s.tndx ops < 0 ∨ s.tndx ops ≥ s.cosOffs
  · -- both calls take the bypass way
    have hs : (s.Sample ops sqr2 vin).2 = { s with env := (ops.Gen s.env).2 } := by
      simp [DynFilterLP.Sample, SampleTraced_of_out_of_range ops sqr2 s vin hr]
    have hr2 : (s.Sample ops sqr2 vin).2.tndx ops < 0 ∨
        (s.Sample ops sqr2 vin).2.tndx ops ≥ (s.Sample ops sqr2 vin).2.cosOffs := by
      rw [h]
      simpa [hs] using hr
    show (DynFilterLP.SampleTraced ops sqr2 (s.Sample ops sqr2 vin).2 vin2).state.coefs = _
    rw [SampleTraced_of_out_of_range ops sqr2 (s.Sample ops sqr2 vin).2 vin2 hr2]
  · push_neg at hr
    have hl : (s.Sample ops sqr2 vin).2.lastNdx = s.tndx ops := by
      by_cases he : s.tndx ops = s.lastNdx
      · simp [DynFilterLP.Sample, SampleTraced_of_same_index ops sqr2 s vin hr.1 hr.2 he, he]
      · simp [DynFilterLP.Sample, SampleTraced_of_new_index ops sqr2 s vin hr.1 hr.2 he]
    exact (key _ vin2 (h.trans hl.symm)).1

/-- C5: when the computed index is out of range (the boundary `tndx = cosOffs`
included), `Sample` takes the bypass way: the base object (coefficients, history
and gain) and `lastNdx` are unchanged, no entry of the table is read, and the
call does the same over any other table. -/
theorem Sample_out_of_range_frame (ops : EnvGenOps α E D T) (sqr2 : α)
    (s : DynFilterLP α E) (vin : α) (h : s.tndx ops < 0 ∨ s.tndx ops ≥ s.cosOffs) :
    (s.Sample ops sqr2 vin).2.coefs = s.coefs ∧
      (s.Sample ops sqr2 vin).2.history = s.history ∧
      (s.Sample ops sqr2 vin).2.toBiQuadFilter = s.toBiQuadFilter ∧
      (s.Sample ops sqr2 vin).2.lastNdx = s.lastNdx ∧
      (s.SampleTraced ops sqr2 vin).branch = Branch.bypass ∧
      (s.SampleTraced ops sqr2 vin).reads = [] ∧
      ∀ tbl : Int → α,
        (({ s with sinTable := tbl } : DynFilterLP α E).Sample ops sqr2 vin).1 =
            (s.Sample ops sqr2 vin).1 ∧
          (({ s with sinTable := tbl } : DynFilterLP α E).Sample ops sqr2 vin).2 =
            { (s.Sample ops sqr2 vin).2 with sinTable := tbl } := by
  have hs := SampleTraced_of_out_of_range ops sqr2 s vin h
  refine ⟨by simp [DynFilterLP.Sample, hs], by simp [DynFilterLP.Sample, hs],
    by simp [DynFilterLP.Sample, hs], by simp [DynFilterLP.Sample, hs], by simp [hs],
    by simp [hs], fun tbl => ?_⟩
  have h' : ({ s with sinTable := tbl } : DynFilterLP α E).tndx ops < 0 ∨
      ({ s with sinTable := tbl } : DynFilterLP α E).tndx ops ≥
        ({ s with sinTable := tbl } : DynFilterLP α E).cosOffs := h
  simp [DynFilterLP.Sample, hs, SampleTraced_of_out_of_range ops sqr2 _ vin h']

/-- C9: with `cosOffs = tableLength / 4` and `tableLength > 0`, every table
offset read by `Sample` lies in `[0, tableLength)`; the recomputation way reads
exactly the offsets `tndx + cosOffs` and `tndx`, and the other ways none. -/
theorem Sample_reads_in_table (ops : EnvGenOps α E D T) (sqr2 : α)
    (s : DynFilterLP α E) (vin : α) (tableLength : Int) (hN : 0 < tableLength)
    (hc : s.cosOffs = Int.tdiv tableLength 4) :
    (∀ i ∈ (s.SampleTraced ops sqr2 vin).reads, 0 ≤ i ∧ i < tableLength) ∧
      ((s.SampleTraced ops sqr2 vin).branch = Branch.recompute →
        (s.SampleTraced ops sqr2 vin).reads = [s.tndx ops + s.cosOffs, s.tndx ops]) ∧
      ((s.SampleTraced ops sqr2 vin).branch ≠ Branch.recompute →
        (s.SampleTraced ops sqr2 vin).reads = []) := by
  have hq : s.cosOffs = tableLength / 4 := by
    rw [hc, Int.tdiv_eq_ediv (le_of_lt hN) (by norm_num)]
  by_cases hr : s.tndx ops < 0 ∨ s.tndx ops ≥ s.cosOffs
  · simp [SampleTraced_of_out_of_range ops sqr2 s vin hr]
  · push_neg at hr
    by_cases he : s.tndx ops = s.lastNdx
    · simp [SampleTraced_of_same_index ops sqr2 s vin hr.1 hr.2 he]
    · have h0 := hr.1
      have h1 := hr.2
      simp only [SampleTraced_of_new_index ops sqr2 s vin hr.1 hr.2 he, List.mem_cons,
        List.mem_singleton, forall_eq_or_imp, forall_eq, List.not_mem_nil, false_imp_iff,
        implies_true, and_true, ne_eq, not_true_eq_false, true_and, forall_const,
        or_false]
      omega

/-- C7 (as stated, refuted): for the level -1/2 with `frqTI = 1` the index used
by `Sample` is 0, while the floor of the product is -1. -/
theorem tndx_differs_from_floor_at_negative_half :
    (fresh16 [-1/2]).tndx scriptEnv = 0 ∧
      Int.floor ((scriptEnv.Gen (fresh16 [-1/2]).env).1 * (fresh16 [-1/2]).frqTI) = -1 ∧
      (fresh16 [-1/2]).tndx scriptEnv ≠
        Int.floor ((scriptEnv.Gen (fresh16 [-1/2]).env).1 * (fresh16 [-1/2]).frqTI) := by
  decide!

/-- C7 (amended): the table index used by `Sample` is the product
`level * frqTI` rounded toward zero: it is the floor of the product when the
product is not negative and its ceiling when it is negative, so its magnitude
never exceeds that of the product and is within one of it; and the constructor
sets `frqTI = (ftableLength / 2) / sampleRate`. -/
theorem tndx_rounds_toward_zero (ops : EnvGenOps α E D T) (s : DynFilterLP α E)
    (base : BiQuadFilter α) (env : E) (wavSin : Int → α) (synthParams : SynthConfig α) :
    (0 ≤ (ops.Gen s.env).1 * s.frqTI →
        s.tndx ops = Int.floor ((ops.Gen s.env).1 * s.frqTI)) ∧
      ((ops.Gen s.env).1 * s.frqTI < 0 →
        s.tndx ops = Int.ceil ((ops.Gen s.env).1 * s.frqTI)) ∧
      |((s.tndx ops : Int) : α)| ≤ |(ops.Gen s.env).1 * s.frqTI| ∧
      |(ops.Gen s.env).1 * s.frqTI| < |((s.tndx ops : Int) : α)| + 1 ∧
      (DynFilterLP.new base env wavSin synthParams).frqTI =
        (synthParams.ftableLength / 2) / synthParams.sampleRate := by
  unfold DynFilterLP.tndx
  generalize (ops.Gen s.env).1 * s.frqTI = x
  refine ⟨fun h => by simp [castInt, h], fun h => by simp [castInt, not_le.mpr h], ?_, ?_, rfl⟩
  · by_cases h : 0 ≤ x
    · have hf : (0 : α) ≤ (Int.floor x : α) := by exact_mod_cast Int.floor_nonneg.mpr h
      simp only [castInt, if_pos h, abs_of_nonneg hf, abs_of_nonneg h]
      exact Int.floor_le x
    · have hx : x < 0 := not_le.mp h
      have hc : ((Int.ceil x : Int) : α) ≤ 0 := by
        exact_mod_cast Int.ceil_le.mpr (by simpa using hx.le)
      simp only [castInt, if_neg h, abs_of_nonpos hc, abs_of_neg hx, neg_le_neg_iff]
      exact Int.le_ceil x
  · by_cases h : 0 ≤ x
    · have hf : (0 : α) ≤ (Int.floor x : α) := by exact_mod_cast Int.floor_nonneg.mpr h
      simp only [castInt, if_pos h, abs_of_nonneg hf, abs_of_nonneg h]
      exact Int.lt_floor_add_one x
    · have hx : x < 0 := not_le.mp h
      have hc : ((Int.ceil x : Int) : α) ≤ 0 := by
        exact_mod_cast Int.ceil_le.mpr (by simpa using hx.le)
      simp only [castInt, if_neg h, abs_of_nonpos hc, abs_of_neg hx]
      have := Int.ceil_lt_add_one x
      linarith

/-- C10: over a table holding the ideal sine cycle `table[i] = sin(2*pi*i/N)`,
with `N` positive and divisible by 4 and `cosOffs = N/4`, every offset `i` with
`0 <= i < cosOffs` has `table[i + cosOffs] = cos(2*pi*i/N)`, and for
`0 < i < cosOffs` the value `c` that `Sample` computes for index `i` is
`cot(2*pi*i/N) = 1/tan(2*pi*i/N)`. -/
theorem ideal_table_quarter_cycle {E : Type} (s : DynFilterLP ℝ E) (N : Int) (hN : 0 < N)
    (h4 : 4 ∣ N) (hc : s.cosOffs = Int.tdiv N 4)
    (ht : ∀ j : Int, 0 ≤ j → j < N → s.sinTable j = Real.sin (2 * Real.pi * (j : ℝ) / (N : ℝ)))
    (i : Int) (h0 : 0 ≤ i) (h1 : i < s.cosOffs) :
    s.sinTable (i + s.cosOffs) = Real.cos (2 * Real.pi * (i : ℝ) / (N : ℝ)) ∧
      (0 < i →
        s.cotLookup i = Real.cot (2 * Real.pi * (i : ℝ) / (N : ℝ)) ∧
        s.cotLookup i = 1 / Real.tan (2 * Real.pi * (i : ℝ) / (N : ℝ))) := by
  have hq : s.cosOffs = N / 4 := by
    rw [hc, Int.tdiv_eq_ediv (le_of_lt hN) (by norm_num)]
  have hNr : (N : ℝ) ≠ 0 := by exact_mod_cast (ne_of_gt hN)
  have hcast : ((s.cosOffs : Int) : ℝ) = (N : ℝ) / 4 := by
    rw [hq, Int.cast_div h4 (by norm_num)]
    norm_num
  have hcos : s.sinTable (i + s.cosOffs) = Real.cos (2 * Real.pi * (i : ℝ) / (N : ℝ)) := by
    rw [ht (i + s.cosOffs) (by omega) (by omega), ← Real.sin_add_pi_div_two]
    congr 1
    push_cast
    rw [hcast]
    field_simp
    ring
  have hsin : s.sinTable i = Real.sin (2 * Real.pi * (i : ℝ) / (N : ℝ)) :=
    ht i h0 (by omega)
  refine ⟨hcos, fun _ => ⟨?_, ?_⟩⟩
  · rw [DynFilterLP.cotLookup, hcos, hsin, Real.cot_eq_cos_div_sin]
  · rw [DynFilterLP.cotLookup, hcos, hsin, Real.tan_eq_sin_div_cos, one_div_div]

/-- C10 (witness): a table of 8 entries, `cosOffs = 2`, offset 1. -/
theorem ideal_table_quarter_cycle_witness :
    (fun j : Int => Real.sin (2 * Real.pi * (j : ℝ) / ((8 : Int) : ℝ))) (1 + Int.tdiv 8 4) =
        Real.cos (2 * Real.pi * ((1 : Int) : ℝ) / ((8 : Int) : ℝ)) ∧
      Real.sin (2 * Real.pi * ((1 + Int.tdiv 8 4 : Int) : ℝ) / ((8 : Int) : ℝ)) /
          Real.sin (2 * Real.pi * ((1 : Int) : ℝ) / ((8 : Int) : ℝ)) =
        Real.cot (2 * Real.pi * ((1 : Int) : ℝ) / ((8 : Int) : ℝ)) :=
  have h := ideal_table_quarter_cycle
    (DynFilterLP.new (E := Unit)
      { ampIn0 := 0, ampIn1 := 0, ampIn2 := 0, ampOut1 := 0, ampOut2 := 0,
        x1 := 0, x2 := 0, y1 := 0, y2 := 0, gain := 1 }
      () (fun j : Int => Real.sin (2 * Real.pi * (j : ℝ) / ((8 : Int) : ℝ)))
      { sampleRate := 44100, ftableLength := 8, itableLength := 8 })
    8 (by decide) (by decide) rfl (fun _ _ _ => rfl) 1 (by decide) (by decide)
  ⟨h.1, (h.2 (by decide)).1⟩

/-- C1 (witness): a held level of 4 with `frqTI = 1` gives the index 4, which is
`cosOffs`; the input 1 comes back. -/
theorem Sample_out_of_range_returns_input_witness :
    ((fresh16 [4]).tndx scriptEnv < 0 ∨ (fresh16 [4]).tndx scriptEnv ≥ (fresh16 [4]).cosOffs) ∧
      ((fresh16 [4]).Sample scriptEnv (7/5) 1).1 = 1 ∧
      ((fresh16 [4]).SampleTraced scriptEnv (7/5) 1).branch = Branch.bypass :=
  ⟨by decide!, Sample_out_of_range_returns_input scriptEnv (7/5) (fresh16 [4]) 1 (by decide!)⟩

/-- C2 (witness): a fresh filter whose envelope yields the index 3. -/
theorem Sample_new_index_coefficients_witness :
    0 ≤ (fresh16 [3]).tndx scriptEnv ∧
      (fresh16 [3]).tndx scriptEnv < (fresh16 [3]).cosOffs ∧
      (fresh16 [3]).tndx scriptEnv ≠ (fresh16 [3]).lastNdx ∧
      ((fresh16 [3]).Sample scriptEnv (7/5) 1).2.ampIn1 =
        2 * (1 / ((fresh16 [3]).sinTable ((fresh16 [3]).tndx scriptEnv + (fresh16 [3]).cosOffs) /
              (fresh16 [3]).sinTable ((fresh16 [3]).tndx scriptEnv) *
            ((fresh16 [3]).sinTable ((fresh16 [3]).tndx scriptEnv + (fresh16 [3]).cosOffs) /
              (fresh16 [3]).sinTable ((fresh16 [3]).tndx scriptEnv)) +
          7/5 * ((fresh16 [3]).sinTable ((fresh16 [3]).tndx scriptEnv + (fresh16 [3]).cosOffs) /
              (fresh16 [3]).sinTable ((fresh16 [3]).tndx scriptEnv)) + 1)) ∧
      ((fresh16 [3]).Sample scriptEnv (7/5) 1).2.lastNdx = (fresh16 [3]).tndx scriptEnv :=
  ⟨by decide!, by decide!, by decide!,
    (Sample_new_index_coefficients scriptEnv (7/5) (fresh16 [3]) 1
      (by decide!) (by decide!) (by decide!)).2.1,
    (Sample_new_index_coefficients scriptEnv (7/5) (fresh16 [3]) 1
      (by decide!) (by decide!) (by decide!)).2.2.2.2.2⟩

/-- C3 (witness): an envelope yielding the index 3 twice; and a fresh filter
whose first index is the initial `lastNdx`. -/
theorem Sample_same_index_keeps_coefficients_witness :
    ((fresh16 [0]).tndx scriptEnv = (fresh16 [0]).lastNdx ∧
      ((fresh16 [0]).Sample scriptEnv (7/5) 1).2.coefs = (fresh16 [0]).coefs) ∧
    (((fresh16 [3, 3]).Sample scriptEnv (7/5) 1).2.tndx scriptEnv =
        (fresh16 [3, 3]).tndx scriptEnv ∧
      ((((fresh16 [3, 3]).Sample scriptEnv (7/5) 1).2).Sample scriptEnv (7/5) 2).2.coefs =
        ((fresh16 [3, 3]).Sample scriptEnv (7/5) 1).2.coefs) :=
  ⟨⟨by decide!,
      ((Sample_same_index_keeps_coefficients scriptEnv (7/5) (fresh16 [0]) 1 2).1
        (by decide!)).1⟩,
    ⟨by decide!,
      (Sample_same_index_keeps_coefficients scriptEnv (7/5) (fresh16 [3, 3]) 1 2).2
        (by decide!)⟩⟩

/-- C5 (witness): the boundary index `tndx = cosOffs = 4`. -/
theorem Sample_out_of_range_frame_witness :
    ((fresh16 [4]).tndx scriptEnv < 0 ∨ (fresh16 [4]).tndx scriptEnv ≥ (fresh16 [4]).cosOffs) ∧
      (fresh16 [4]).tndx scriptEnv = (fresh16 [4]).cosOffs ∧
      ((fresh16 [4]).Sample scriptEnv (7/5) 1).2.toBiQuadFilter = (fresh16 [4]).toBiQuadFilter ∧
      ((fresh16 [4]).Sample scriptEnv (7/5) 1).2.lastNdx = (fresh16 [4]).lastNdx ∧
      ((fresh16 [4]).SampleTraced scriptEnv (7/5) 1).reads = [] :=
  ⟨by decide!, by decide!,
    (Sample_out_of_range_frame scriptEnv (7/5) (fresh16 [4]) 1 (by decide!)).2.2.1,
    (Sample_out_of_range_frame scriptEnv (7/5) (fresh16 [4]) 1 (by decide!)).2.2.2.1,
    (Sample_out_of_range_frame scriptEnv (7/5) (fresh16 [4]) 1 (by decide!)).2.2.2.2.2.1⟩

/-- C7 (witness): the level 3 (product 3, not negative) and the level -1/2
(product -1/2, negative). -/
theorem tndx_rounds_toward_zero_witness :
    (0 ≤ (scriptEnv.Gen (fresh16 [3]).env).1 * (fresh16 [3]).frqTI ∧
      (fresh16 [3]).tndx scriptEnv =
        Int.floor ((scriptEnv.Gen (fresh16 [3]).env).1 * (fresh16 [3]).frqTI)) ∧
    ((scriptEnv.Gen (fresh16 [-1/2]).env).1 * (fresh16 [-1/2]).frqTI < 0 ∧
      (fresh16 [-1/2]).tndx scriptEnv =
        Int.ceil ((scriptEnv.Gen (fresh16 [-1/2]).env).1 * (fresh16 [-1/2]).frqTI)) :=
  ⟨⟨by decide!,
      (tndx_rounds_toward_zero scriptEnv (fresh16 [3]) zeroBiQuad [] wav16 params16).1
        (by decide!)⟩,
    ⟨by decide!,
      (tndx_rounds_toward_zero scriptEnv (fresh16 [-1/2]) zeroBiQuad [] wav16 params16).2.1
        (by decide!)⟩⟩

/-- C9 (witness): the table of 16 entries and a call that recomputes at index
3, reading the offsets 7 and 3. -/
theorem Sample_reads_in_table_witness :
    (0 : Int) < 16 ∧ (fresh16 [3]).cosOffs = Int.tdiv 16 4 ∧
      ((fresh16 [3]).SampleTraced scriptEnv (7/5) 1).reads = [7, 3] ∧
      ∀ i ∈ ((fresh16 [3]).SampleTraced scriptEnv (7/5) 1).reads, 0 ≤ i ∧ i < 16 :=
  ⟨by decide, by decide!, by decide!,
    (Sample_reads_in_table scriptEnv (7/5) (fresh16 [3]) 1 16 (by decide) (by decide!)).1⟩

/-- A call of `Sample` keeps `frqTI` and `cosOffs` and advances the envelope by
one `Gen`. -/
theorem Sample_keeps_scale (ops : EnvGenOps α E D T) (sqr2 : α) (s : DynFilterLP α E) (vin : α) :
    (s.SampleTraced ops sqr2 vin).state.frqTI = s.frqTI ∧
      (s.SampleTraced ops sqr2 vin).state.cosOffs = s.cosOffs ∧
      (s.SampleTraced ops sqr2 vin).state.env = (ops.Gen s.env).2 := by
  by_cases hr : s.tndx ops < 0 ∨ s.tndx ops ≥ s.cosOffs
  · simp [SampleTraced_of_out_of_range ops sqr2 s vin hr]
  · push_neg at hr
    by_cases he : s.tndx ops = s.lastNdx
    · simp [SampleTraced_of_same_index ops sqr2 s vin hr.1 hr.2 he]
    · simp [SampleTraced_of_new_index ops sqr2 s vin hr.1 hr.2 he]

/-- An envelope that yields one level at every step from a state on keeps the
index in range and cached, so every call takes the cached way. -/
theorem branches_all_cached (ops : EnvGenOps α E D T) (sqr2 L : α) (ins : List α) :
    ∀ s : DynFilterLP α E,
      (∀ n : ℕ, (ops.Gen ((fun e => (ops.Gen e).2)^[n] s.env)).1 = L) →
      0 ≤ castInt (L * s.frqTI) → castInt (L * s.frqTI) < s.cosOffs →
      s.lastNdx = castInt (L * s.frqTI) →
      s.branches ops sqr2 ins = List.replicate ins.length Branch.cached := by
  induction ins with
  | nil => intro s _ _ _ _; rfl
  | cons vin rest ih =>
    intro s hL h0 h1 hl
    have ht : s.tndx ops = castInt (L * s.frqTI) := by
      have := hL 0
      simp only [Function.iterate_zero, id_eq] at this
      simp [DynFilterLP.tndx, this]
    have hs := SampleTraced_of_same_index ops sqr2 s vin (ht ▸ h0) (ht ▸ h1) (ht.trans hl.symm)
    have hk := Sample_keeps_scale ops sqr2 s vin
    have hrec := ih (s.SampleTraced ops sqr2 vin).state
      (by
        intro n
        rw [hk.2.2]
        have := hL (n + 1)
        rwa [Function.iterate_succ_apply] at this)
      (by rw [hk.1]; exact h0) (by rw [hk.1, hk.2.1]; exact h1)
      (by rw [hk.1]; rw [hs]; exact hl)
    simp only [DynFilterLP.branches, DynFilterLP.run, List.map_cons, List.length_cons,
      List.replicate_succ] at hrec ⊢
    rw [hrec]
    simp [hs]
/-- An envelope that yields one level at every step from a state on, with that
level's index out of range, makes every call take the bypass way. -/
theorem branches_all_bypass (ops : EnvGenOps α E D T) (sqr2 L : α) (ins : List α) :
    ∀ s : DynFilterLP α E,
      (∀ n : ℕ, (ops.Gen ((fun e => (ops.Gen e).2)^[n] s.env)).1 = L) →
      (castInt (L * s.frqTI) < 0 ∨ castInt (L * s.frqTI) ≥ s.cosOffs) →
      s.branches ops sqr2 ins = List.replicate ins.length Branch.bypass := by
  induction ins with
  | nil => intro s _ _; rfl
  | cons vin rest ih =>
    intro s hL hr
    have ht : s.tndx ops = castInt (L * s.frqTI) := by
      have := hL 0
      simp only [Function.iterate_zero, id_eq] at this
      simp [DynFilterLP.tndx, this]
    have hs := SampleTraced_of_out_of_range ops sqr2 s vin (ht ▸ hr)
    have hk := Sample_keeps_scale ops sqr2 s vin
    have hrec := ih (s.SampleTraced ops sqr2 vin).state
      (by
        intro n
        rw [hk.2.2]
        have := hL (n + 1)
        rwa [Function.iterate_succ_apply] at this)
      (by rw [hk.1, hk.2.1]; exact hr)
    simp only [DynFilterLP.branches, DynFilterLP.run, List.map_cons, List.length_cons,
      List.replicate_succ] at hrec ⊢
    rw [hrec]
    simp [hs]

/-- An envelope that yields one level at every step from a state on, with that
level's index in range and different from the cached one, makes the first call
recompute and every later call take the cached way. -/
theorem branches_recompute_then_cached (ops : EnvGenOps α E D T) (sqr2 L : α)
    (s : DynFilterLP α E) (vin : α) (rest : List α)
    (hL : ∀ n : ℕ, (ops.Gen ((fun e => (ops.Gen e).2)^[n] s.env)).1 = L)
    (h0 : 0 ≤ castInt (L * s.frqTI)) (h1 : castInt (L * s.frqTI) < s.cosOffs)
    (h2 : castInt (L * s.frqTI) ≠ s.lastNdx) :
    s.branches ops sqr2 (vin :: rest) =
      Branch.recompute :: List.replicate rest.length Branch.cached := by
  have ht : s.tndx ops = castInt (L * s.frqTI) := by
    have := hL 0
    simp only [Function.iterate_zero, id_eq] at this
    simp [DynFilterLP.tndx, this]
  have hs := SampleTraced_of_new_index ops sqr2 s vin (ht ▸ h0) (ht ▸ h1) (ht ▸ h2)
  have hk := Sample_keeps_scale ops sqr2 s vin
  have hrec := branches_all_cached ops sqr2 L rest (s.SampleTraced ops sqr2 vin).state
    (by
      intro n
      rw [hk.2.2]
      have := hL (n + 1)
      rwa [Function.iterate_succ_apply] at this)
    (by rw [hk.1]; exact h0) (by rw [hk.1, hk.2.1]; exact h1)
    (by rw [hk.1]; rw [hs]; exact ht)
  simp only [DynFilterLP.branches, DynFilterLP.run, List.map_cons] at hrec ⊢
  rw [hrec]
  simp [hs]

/-- C4 (as stated, refuted): a freshly constructed filter under a constant
envelope level never recomputes when the level's index is out of range (level 4,
index `cosOffs`), nor when the index is the constructor's `lastNdx = 0`
(level 0). -/
theorem constant_level_without_recomputation :
    (fresh16 [4]).branches scriptEnv (7/5) [1, 1, 1] =
        [Branch.bypass, Branch.bypass, Branch.bypass] ∧
      (fresh16 [0]).branches scriptEnv (7/5) [1, 1, 1] =
        [Branch.cached, Branch.cached, Branch.cached] ∧
      ((fresh16 [4]).branches scriptEnv (7/5) [1, 1, 1]).count Branch.recompute = 0 ∧
      ((fresh16 [0]).branches scriptEnv (7/5) [1, 1, 1]).count Branch.recompute = 0 := by
  decide!

/-- C4 (amended): take a filter as the constructor leaves it, or such a filter
after `InitFilter`, and an envelope that yields one constant level from then on.
If the level's index `t` satisfies `0 < t < cosOffs`, then over any sequence of
`n >= 1` calls of `Sample` the first call recomputes the coefficients and each
of the calls 2..n takes the cached way; if `t` is out of range, every call takes
the bypass way and the coefficients are never recomputed. -/
theorem constant_level_recomputes_once (ops : EnvGenOps α E D T) (sqr2 L : α)
    (base : BiQuadFilter α) (env : E) (wavSin : Int → α) (synthParams : SynthConfig α)
    (st ar al dr sl rr rl : α) (ty : T) (fg : α) (initialised : Bool)
    (vin : α) (rest : List α) :
    let s0 : DynFilterLP α E := DynFilterLP.new base env wavSin synthParams
    let s : DynFilterLP α E :=
      if initialised then s0.InitFilter ops st ar al dr sl rr rl ty fg else s0
    let t := castInt (L * s.frqTI)
    (∀ n : ℕ, (ops.Gen ((fun e => (ops.Gen e).2)^[n] s.env)).1 = L) →
      (0 < t ∧ t < s.cosOffs →
        s.branches ops sqr2 (vin :: rest) =
          Branch.recompute :: List.replicate rest.length Branch.cached) ∧
      (t < 0 ∨ t ≥ s.cosOffs →
        s.branches ops sqr2 (vin :: rest) =
          List.replicate (rest.length + 1) Branch.bypass) := by
  intro s0 s t hL
  have hl : s.lastNdx = 0 := by
    cases initialised <;> rfl
  refine ⟨fun h => ?_, fun h => ?_⟩
  · exact branches_recompute_then_cached ops sqr2 L s vin rest hL (le_of_lt h.1) h.2
      (by rw [hl]; exact ne_of_gt h.1)
  · exact branches_all_bypass ops sqr2 L (vin :: rest) s hL h

/-- C4 (witness): the constructed filter over the 16-entry table with the level
held at 3 (index 3, recomputed once), and the initialised one with the level
held at 4 (index `cosOffs`, always bypassed). -/
theorem constant_level_recomputes_once_witness :
    ((0 < castInt ((3 : ℚ) * (fresh16 [3]).frqTI) ∧
        castInt ((3 : ℚ) * (fresh16 [3]).frqTI) < (fresh16 [3]).cosOffs) ∧
      (fresh16 [3]).branches scriptEnv (7/5) [1, 1, 1] =
        [Branch.recompute, Branch.cached, Branch.cached]) ∧
    ((castInt ((4 : ℚ) * (fresh16 [4]).frqTI) < 0 ∨
        castInt ((4 : ℚ) * (fresh16 [4]).frqTI) ≥ (fresh16 [4]).cosOffs) ∧
      ((fresh16 [4]).InitFilter scriptEnv 4 0 4 0 4 0 4 () 1).branches scriptEnv (7/5) [1, 1, 1] =
        [Branch.bypass, Branch.bypass, Branch.bypass]) :=
  ⟨⟨by decide!,
      (constant_level_recomputes_once scriptEnv (7/5) 3 zeroBiQuad [3] wav16 params16
        0 0 0 0 0 0 0 () 1 false 1 [1, 1]
        (fun n => by rw [Function.iterate_fixed rfl n]; rfl)).1 (by decide!)⟩,
    ⟨by decide!,
      (constant_level_recomputes_once scriptEnv (7/5) 4 zeroBiQuad [4] wav16 params16
        4 0 4 0 4 0 4 () 1 true 1 [1, 1]
        (fun n => by rw [Function.iterate_fixed rfl n]; rfl)).2 (by decide!)⟩⟩

/-- When source and destination agree on the members that `Copy` leaves alone
(`frqTI`, `cosOffs`, `lastNdx`, `sinTable`), the copy is the source, and the
two produce the same outputs. -/
theorem Copy_outputs_of_same_lastNdx (ops : EnvGenOps α E D T) (sqr2 : α)
    (self fp : DynFilterLP α E) (hf : fp.frqTI = self.frqTI) (hc : fp.cosOffs = self.cosOffs)
    (hl : fp.lastNdx = self.lastNdx) (ht : fp.sinTable = self.sinTable) (ins : List α) :
    self.Copy fp = self ∧ (self.Copy fp).outputs ops sqr2 ins = self.outputs ops sqr2 ins := by
  have h : self.Copy fp = self := by
    cases self
    cases fp
    simp_all [DynFilterLP.Copy, BiQuadFilter.Copy, EnvGenCopy]
  exact ⟨h, by rw [h]⟩

/-- C6 (the code at the failing input): the source has sampled once at index 2
and its envelope yields index 3 next; the destination has sampled once at index
3.  `Copy` gives the destination the source's base object and envelope but
leaves its `lastNdx = 3`.  On the next `Sample(1)` the source recomputes for
index 3, the copy reuses the coefficients of index 2, and the outputs differ. -/
theorem Copy_then_Sample_outputs_differ :
    (copySource.Copy copyDest).toBiQuadFilter = copySource.toBiQuadFilter ∧
      (copySource.Copy copyDest).env = copySource.env ∧
      copySource.lastNdx = 2 ∧ (copySource.Copy copyDest).lastNdx = 3 ∧
      copySource.branches scriptEnv (7/5) [1] = [Branch.recompute] ∧
      (copySource.Copy copyDest).branches scriptEnv (7/5) [1] = [Branch.cached] ∧
      copySource.outputs scriptEnv (7/5) [1] = [362/253] ∧
      (copySource.Copy copyDest).outputs scriptEnv (7/5) [1] = [15/17] ∧
      copySource.outputs scriptEnv (7/5) [1] ≠
        (copySource.Copy copyDest).outputs scriptEnv (7/5) [1] := by
  decide!

/-- C8 (the code at the failing input): on a filter whose envelope definition
is `[3]`, `SetEnvDef` with the record `[5]` followed by `GetEnvDef` yields
`[3]`, not `[5]`; the call of `SetEnvDef` itself overwrote the caller's record
with `[3]` and left the filter as it was. -/
theorem SetEnvDef_then_GetEnvDef_at_input :
    (DynFilterLP.GetEnvDef scriptEnv
        (DynFilterLP.SetEnvDef scriptEnv (fresh16 [3]) [5]).2 []).1 = [3] ∧
      (DynFilterLP.GetEnvDef scriptEnv
        (DynFilterLP.SetEnvDef scriptEnv (fresh16 [3]) [5]).2 []).1 ≠ [5] ∧
      (DynFilterLP.SetEnvDef scriptEnv (fresh16 [3]) [5]).1 = [3] ∧
      (DynFilterLP.SetEnvDef scriptEnv (fresh16 [3]) [5]).2.env = (fresh16 [3]).env := by
  decide!

omit [LinearOrderedField α] [FloorRing α] in
/-- C11: `SetEnvDef(e)` does what `GetEnvDef(e)` does: it yields the same record
and the same next state, the object (its envelope included) is left as it was,
and the caller's record becomes the envelope's existing definition whatever the
record held. -/
theorem SetEnvDef_reads_definition (ops : EnvGenOps α E D T) (s : DynFilterLP α E) (e : D) :
    DynFilterLP.SetEnvDef ops s e = DynFilterLP.GetEnvDef ops s e ∧
      (DynFilterLP.SetEnvDef ops s e).2 = s ∧
      (DynFilterLP.SetEnvDef ops s e).2.env = s.env ∧
      ops.GetEnvDef (DynFilterLP.SetEnvDef ops s e).2.env = ops.GetEnvDef s.env ∧
      (DynFilterLP.SetEnvDef ops s e).1 = ops.GetEnvDef s.env :=
  ⟨rfl, rfl, rfl, rfl, rfl⟩

/-- C12: when the computed index is in range, the coefficients after `Sample`
are those in effect after the conditional recomputation for the current index
(the low-pass formulas at the current index if it differs from `lastNdx`, the
previous coefficients otherwise), the returned sample is
in0*input + in1*x1 + in2*x2 - out1*y1 - out2*y2 with these coefficients and the
history before the call, and the history shifts: x2 := x1, x1 := input,
y2 := y1, y1 := output. -/
theorem Sample_in_range_output (ops : EnvGenOps α E D T) (sqr2 : α)
    (s : DynFilterLP α E) (vin : α) (h0 : 0 ≤ s.tndx ops) (h1 : s.tndx ops < s.cosOffs) :
    let out := (s.Sample ops sqr2 vin).1
    let s' := (s.Sample ops sqr2 vin).2
    s'.coefs =
        (if s.tndx ops ≠ s.lastNdx then
          (lowPassCoef sqr2 (s.cotLookup (s.tndx ops)) s.toBiQuadFilter).coefs
        else s.coefs) ∧
      out = s'.ampIn0 * vin + s'.ampIn1 * s.x1 + s'.ampIn2 * s.x2
        - s'.ampOut1 * s.y1 - s'.ampOut2 * s.y2 ∧
      s'.x2 = s.x1 ∧ s'.x1 = vin ∧ s'.y2 = s.y1 ∧ s'.y1 = out := by
  by_cases he : s.tndx ops = s.lastNdx
  · simp [DynFilterLP.Sample, SampleTraced_of_same_index ops sqr2 s vin h0 h1 he,
      BiQuadFilter.Sample, BiQuadFilter.coefs, he]
  · simp [DynFilterLP.Sample, SampleTraced_of_new_index ops sqr2 s vin h0 h1 he,
      BiQuadFilter.Sample, BiQuadFilter.coefs, lowPassCoef, he]

/-- C12 (witness): a fresh filter whose envelope yields the index 3, so that the
call recomputes. -/
theorem Sample_in_range_output_witness :
    0 ≤ (fresh16 [3]).tndx scriptEnv ∧
      (fresh16 [3]).tndx scriptEnv < (fresh16 [3]).cosOffs ∧
      ((fresh16 [3]).Sample scriptEnv (7/5) 1).2.x1 = 1 ∧
      ((fresh16 [3]).Sample scriptEnv (7/5) 1).2.y1 = ((fresh16 [3]).Sample scriptEnv (7/5) 1).1 :=
  ⟨by decide!, by decide!,
    (Sample_in_range_output scriptEnv (7/5) (fresh16 [3]) 1 (by decide!) (by decide!)).2.2.2.1,
    (Sample_in_range_output scriptEnv (7/5) (fresh16 [3]) 1
      (by decide!) (by decide!)).2.2.2.2.2⟩

/-- C13: every call of `Sample` leaves the envelope in the state one `Gen`
after the state before the call, on each of the three ways; and after the calls
for a sequence of `n` inputs the envelope is `n` steps of `Gen` on. -/
theorem Sample_advances_envelope (ops : EnvGenOps α E D T) (sqr2 : α)
    (s : DynFilterLP α E) (vin : α) (ins : List α) :
    (s.Sample ops sqr2 vin).2.env = (ops.Gen s.env).2 ∧
      (s.run ops sqr2 ins).2.env = (fun e => (ops.Gen e).2)^[ins.length] s.env := by
  refine ⟨(Sample_keeps_scale ops sqr2 s vin).2.2, ?_⟩
  induction ins generalizing s with
  | nil => rfl
  | cons w rest ih =>
    have := ih (s.SampleTraced ops sqr2 w).state
    rw [(Sample_keeps_scale ops sqr2 s w).2.2] at this
    simpa [DynFilterLP.run, Function.iterate_succ_apply] using this

/-- C14 (as stated, refuted): a filter that has sampled once has the history
(1, 0, 5/17, 0); after `Reset(0)` the history is the same, not zero. -/
theorem Reset_keeps_history_at_input :
    copySource.history = (1, 0, 5/17, 0) ∧
      (DynFilterLP.Reset scriptEnv copySource 0).history = (1, 0, 5/17, 0) ∧
      (DynFilterLP.Reset scriptEnv copySource 0).history ≠ (0, 0, 0, 0) := by
  decide!

omit [LinearOrderedField α] [FloorRing α] in
/-- C14 (amended): `Reset(phase)` resets the embedded envelope with
`env.Reset(phase)` and changes nothing else: the base object, with its input
and output history, its coefficients and its gain, and the members `lastNdx`,
`frqTI`, `cosOffs` and `sinTable` are as before the call. -/
theorem Reset_touches_envelope_only (ops : EnvGenOps α E D T) (s : DynFilterLP α E)
    (initPhs : α) :
    (DynFilterLP.Reset ops s initPhs).env = ops.Reset initPhs s.env ∧
      (DynFilterLP.Reset ops s initPhs).history = s.history ∧
      (DynFilterLP.Reset ops s initPhs).coefs = s.coefs ∧
      (DynFilterLP.Reset ops s initPhs).toBiQuadFilter = s.toBiQuadFilter ∧
      (DynFilterLP.Reset ops s initPhs).lastNdx = s.lastNdx ∧
      DynFilterLP.Reset ops s initPhs = { s with env := ops.Reset initPhs s.env } :=
  ⟨rfl, rfl, rfl, rfl, rfl, rfl⟩

/-- C15: if the cache is coherent before a call of `Sample`, it is coherent
after it, whatever the input and the way taken; `Reset` and `Release` keep a
coherent cache coherent as well. -/
theorem Coherent_preserved (ops : EnvGenOps α E D T) (sqr2 : α)
    (s : DynFilterLP α E) (vin initPhs : α) (h : s.Coherent sqr2) :
    (s.Sample ops sqr2 vin).2.Coherent sqr2 ∧
      (DynFilterLP.Reset ops s initPhs).Coherent sqr2 ∧
      (DynFilterLP.Release ops s).Coherent sqr2 := by
  refine ⟨?_, h, h⟩
  by_cases hr : s.tndx ops < 0 ∨ s.tndx ops ≥ s.cosOffs
  · simpa [DynFilterLP.Sample, SampleTraced_of_out_of_range ops sqr2 s vin hr,
      DynFilterLP.Coherent, DynFilterLP.cotLookup] using h
  · push_neg at hr
    by_cases he : s.tndx ops = s.lastNdx
    · simpa [DynFilterLP.Sample, SampleTraced_of_same_index ops sqr2 s vin hr.1 hr.2 he,
        DynFilterLP.Coherent, DynFilterLP.cotLookup, BiQuadFilter.Sample, BiQuadFilter.coefs,
        lowPassCoef] using h
    · simp [DynFilterLP.Sample, SampleTraced_of_new_index ops sqr2 s vin hr.1 hr.2 he,
        DynFilterLP.Coherent, DynFilterLP.cotLookup, BiQuadFilter.Sample, BiQuadFilter.coefs,
        lowPassCoef]

/-- C15 (witness): a filter that has sampled once at index 2 is coherent; its
next call recomputes for index 3. -/
theorem Coherent_preserved_witness :
    copySource.Coherent (7/5) ∧
      (copySource.Sample scriptEnv (7/5) 1).2.Coherent (7/5) ∧
      (DynFilterLP.Reset scriptEnv copySource 0).Coherent (7/5) ∧
      (DynFilterLP.Release scriptEnv copySource).Coherent (7/5) :=
  ⟨by unfold DynFilterLP.Coherent; decide!,
    Coherent_preserved scriptEnv (7/5) copySource 1 0 (by unfold DynFilterLP.Coherent; decide!)⟩

omit [FloorRing α] in
/-- The recomputed coefficients for a positive `c` and a positive `sqr2` lie in
the stability triangle. -/
theorem lowPassCoef_in_triangle (sqr2 c : α) (hs : 0 < sqr2) (hc : 0 < c)
    (f : BiQuadFilter α) :
    0 < (lowPassCoef sqr2 c f).ampIn0 ∧ (lowPassCoef sqr2 c f).ampIn0 < 1 ∧
      |(lowPassCoef sqr2 c f).ampOut2| < 1 ∧
      |(lowPassCoef sqr2 c f).ampOut1| < 1 + (lowPassCoef sqr2 c f).ampOut2 := by
  have hsc : 0 < sqr2 * c := mul_pos hs hc
  have hcc : 0 < c * c := mul_pos hc hc
  have hD : 0 < c * c + sqr2 * c + 1 := by linarith
  have hD1 : 1 < c * c + sqr2 * c + 1 := by linarith
  simp only [lowPassCoef, mul_one_div]
  refine ⟨by positivity, (div_lt_one hD).mpr hD1, ?_, ?_⟩
  · rw [abs_lt]
    constructor
    · rw [lt_div_iff₀ hD]; linarith
    · rw [div_lt_one hD]; linarith
  · have e : 1 + (c * c - sqr2 * c + 1) / (c * c + sqr2 * c + 1) =
        (2 * (c * c) + 2) / (c * c + sqr2 * c + 1) := by
      field_simp
      ring
    rw [e, abs_lt]
    constructor
    · rw [← neg_div, div_lt_div_iff_of_pos_right hD]; linarith
    · rw [div_lt_div_iff_of_pos_right hD]; linarith

omit [FloorRing α] in
/-- The recomputed coefficients have unity gain at zero frequency whenever the
denominator of `oned` is not zero. -/
theorem lowPassCoef_dc_gain (sqr2 c : α) (h : c * c + sqr2 * c + 1 ≠ 0)
    (f : BiQuadFilter α) :
    (lowPassCoef sqr2 c f).ampIn0 + (lowPassCoef sqr2 c f).ampIn1
        + (lowPassCoef sqr2 c f).ampIn2 =
      1 + (lowPassCoef sqr2 c f).ampOut1 + (lowPassCoef sqr2 c f).ampOut2 ∧
      (lowPassCoef sqr2 c f).ampIn1 = 2 * (lowPassCoef sqr2 c f).ampIn0 ∧
      (lowPassCoef sqr2 c f).ampIn2 = (lowPassCoef sqr2 c f).ampIn0 := by
  simp only [lowPassCoef]
  refine ⟨?_, by ring, trivial⟩
  field_simp
  ring

/-- A monic real quadratic whose coefficients lie in the stability triangle has
both roots strictly inside the unit circle. -/
theorem roots_inside_unit_circle (a1 a2 : ℝ) (h2 : |a2| < 1) (h1 : |a1| < 1 + a2)
    (z : ℂ) (hz : z ^ 2 + (a1 : ℂ) * z + (a2 : ℂ) = 0) : Complex.abs z < 1 := by
  have hre := congrArg Complex.re hz
  have him := congrArg Complex.im hz
  simp [pow_two] at hre him
  rw [abs_lt] at h1 h2
  have hn : z.re * z.re + z.im * z.im < 1 := by
    by_cases hy : z.im = 0
    · rw [hy] at hre
      simp at hre
      by_contra hcon
      push_neg at hcon
      rw [hy] at hcon
      simp at hcon
      rcases le_or_lt 1 z.re with hx | hx
      · nlinarith [mul_nonneg (sub_nonneg.mpr hx) (sub_nonneg.mpr (le_of_lt (lt_of_lt_of_le h2.2 hx)))]
      · have hx' : z.re ≤ -1 := by
          by_contra hh
          push_neg at hh
          nlinarith
        nlinarith [mul_nonneg (by linarith : 0 ≤ -(z.re + 1)) (by linarith : 0 ≤ -(z.re + a2))]
    · have hx : 2 * z.re + a1 = 0 := by
        have : z.im * (2 * z.re + a1) = 0 := by linarith
        rcases mul_eq_zero.mp this with h | h
        · exact absurd h hy
        · exact h
      nlinarith
  rw [Complex.abs_apply, Complex.normSq_apply]
  rw [Real.sqrt_lt' one_pos]
  simpa using hn
/-- C16: for every real `c > 0`, the coefficients that the recomputation of
`Sample` assigns (with `sqr2` the square root of two) satisfy `0 < in0 < 1`,
`|out2| < 1` and `|out1| < 1 + out2`; hence both poles of the filter, the roots
of `z^2 + out1*z + out2`, lie strictly inside the unit circle. -/
theorem recomputed_coefficients_stable (c : ℝ) (hc : 0 < c) (f : BiQuadFilter ℝ) :
    0 < (lowPassCoef (Real.sqrt 2) c f).ampIn0 ∧
      (lowPassCoef (Real.sqrt 2) c f).ampIn0 < 1 ∧
      |(lowPassCoef (Real.sqrt 2) c f).ampOut2| < 1 ∧
      |(lowPassCoef (Real.sqrt 2) c f).ampOut1| < 1 + (lowPassCoef (Real.sqrt 2) c f).ampOut2 ∧
      ∀ z : ℂ,
        z ^ 2 + ((lowPassCoef (Real.sqrt 2) c f).ampOut1 : ℂ) * z
            + ((lowPassCoef (Real.sqrt 2) c f).ampOut2 : ℂ) = 0 →
          Complex.abs z < 1 := by
  have h := lowPassCoef_in_triangle (Real.sqrt 2) c (Real.sqrt_pos.mpr two_pos) hc f
  exact ⟨h.1, h.2.1, h.2.2.1, h.2.2.2,
    fun z hz => roots_inside_unit_circle _ _ h.2.2.1 h.2.2.2 z hz⟩

/-- C16 (witness): `c = 1`, the value at one eighth of the table. -/
theorem recomputed_coefficients_stable_witness :
    (0 : ℝ) < 1 ∧
      (lowPassCoef (Real.sqrt 2) 1
        ({ ampIn0 := 0, ampIn1 := 0, ampIn2 := 0, ampOut1 := 0, ampOut2 := 0,
           x1 := 0, x2 := 0, y1 := 0, y2 := 0, gain := 1 } : BiQuadFilter ℝ)).ampIn0 < 1 :=
  ⟨one_pos, (recomputed_coefficients_stable 1 one_pos _).2.1⟩

/-- C17: for every real `c` with `c*c + sqrt(2)*c + 1` not zero, the
coefficients that the recomputation of `Sample` assigns satisfy
`in0 + in1 + in2 = 1 + out1 + out2`, `in1 = 2*in0` and `in2 = in0`. -/
theorem recomputed_coefficients_unity_gain (c : ℝ)
    (h : c * c + Real.sqrt 2 * c + 1 ≠ 0) (f : BiQuadFilter ℝ) :
    (lowPassCoef (Real.sqrt 2) c f).ampIn0 + (lowPassCoef (Real.sqrt 2) c f).ampIn1
        + (lowPassCoef (Real.sqrt 2) c f).ampIn2 =
      1 + (lowPassCoef (Real.sqrt 2) c f).ampOut1 + (lowPassCoef (Real.sqrt 2) c f).ampOut2 ∧
      (lowPassCoef (Real.sqrt 2) c f).ampIn1 = 2 * (lowPassCoef (Real.sqrt 2) c f).ampIn0 ∧
      (lowPassCoef (Real.sqrt 2) c f).ampIn2 = (lowPassCoef (Real.sqrt 2) c f).ampIn0 :=
  lowPassCoef_dc_gain (Real.sqrt 2) c h f

/-- C17 (witness): `c = 1`. -/
theorem recomputed_coefficients_unity_gain_witness :
    ((1 : ℝ) * 1 + Real.sqrt 2 * 1 + 1 ≠ 0) ∧
      (lowPassCoef (Real.sqrt 2) 1
        ({ ampIn0 := 0, ampIn1 := 0, ampIn2 := 0, ampOut1 := 0, ampOut2 := 0,
           x1 := 0, x2 := 0, y1 := 0, y2 := 0, gain := 1 } : BiQuadFilter ℝ)).ampIn2 =
        (lowPassCoef (Real.sqrt 2) 1
          ({ ampIn0 := 0, ampIn1 := 0, ampIn2 := 0, ampOut1 := 0, ampOut2 := 0,
             x1 := 0, x2 := 0, y1 := 0, y2 := 0, gain := 1 } : BiQuadFilter ℝ)).ampIn0 :=
  ⟨by positivity, (recomputed_coefficients_unity_gain 1 (by positivity) _).2.2⟩

/-- Over the ideal sine table the entry a quarter of the table further on is
the cosine. -/
theorem ideal_table_cos {E : Type} (s : DynFilterLP ℝ E) (N : Int) (hN : 0 < N)
    (h4 : 4 ∣ N) (hc : s.cosOffs = Int.tdiv N 4)
    (ht : ∀ j : Int, 0 ≤ j → j < N → s.sinTable j = Real.sin (2 * Real.pi * (j : ℝ) / (N : ℝ)))
    (i : Int) (h0 : 0 ≤ i) (h1 : i < s.cosOffs) :
    s.sinTable (i + s.cosOffs) = Real.cos (2 * Real.pi * (i : ℝ) / (N : ℝ)) := by
  have hq : s.cosOffs = N / 4 := by
    rw [hc, Int.tdiv_eq_ediv (le_of_lt hN) (by norm_num)]
  have hNr : (N : ℝ) ≠ 0 := by exact_mod_cast (ne_of_gt hN)
  have hcast : ((s.cosOffs : Int) : ℝ) = (N : ℝ) / 4 := by
    rw [hq, Int.cast_div h4 (by norm_num)]
    norm_num
  rw [ht (i + s.cosOffs) (by omega) (by omega), ← Real.sin_add_pi_div_two]
  congr 1
  push_cast
  rw [hcast]
  field_simp
  ring

/-- Over the ideal sine table, every index strictly between 0 and `cosOffs` has
a positive sine entry, a positive cosine entry and hence a positive `c`: the
divisor of the recomputation is not zero there. -/
theorem ideal_table_entries_pos {E : Type} (s : DynFilterLP ℝ E) (N : Int) (hN : 0 < N)
    (h4 : 4 ∣ N) (hc : s.cosOffs = Int.tdiv N 4)
    (ht : ∀ j : Int, 0 ≤ j → j < N → s.sinTable j = Real.sin (2 * Real.pi * (j : ℝ) / (N : ℝ)))
    (i : Int) (h0 : 0 < i) (h1 : i < s.cosOffs) :
    0 < s.sinTable i ∧ 0 < s.sinTable (i + s.cosOffs) ∧ 0 < s.cotLookup i := by
  have hq : s.cosOffs = N / 4 := by
    rw [hc, Int.tdiv_eq_ediv (le_of_lt hN) (by norm_num)]
  have hNr : (0 : ℝ) < (N : ℝ) := by exact_mod_cast hN
  have hir : (0 : ℝ) < (i : ℝ) := by exact_mod_cast h0
  have hi4 : (4 : ℝ) * (i : ℝ) < (N : ℝ) := by
    have : 4 * i < N := by omega
    exact_mod_cast this
  have hpos : 0 < 2 * Real.pi * (i : ℝ) / (N : ℝ) := by positivity
  have hlt : 2 * Real.pi * (i : ℝ) / (N : ℝ) < Real.pi / 2 := by
    rw [div_lt_iff₀ hNr]
    nlinarith [Real.pi_pos]
  have hsin : 0 < s.sinTable i := by
    rw [ht i (le_of_lt h0) (by omega)]
    exact Real.sin_pos_of_pos_of_lt_pi hpos (by linarith [Real.pi_pos])
  have hcos : 0 < s.sinTable (i + s.cosOffs) := by
    rw [(ideal_table_cos s N hN h4 hc ht i (le_of_lt h0) h1)]
    exact Real.cos_pos_of_mem_Ioo ⟨by linarith [Real.pi_pos], hlt⟩
  exact ⟨hsin, hcos, div_pos hcos hsin⟩

/-- The denominator of `oned` in the recomputation is positive for every real
`c`, so the second division of the recomputation never has a zero divisor. -/
theorem recompute_denominator_pos (c : ℝ) (f : BiQuadFilter ℝ) :
    0 < c * c + Real.sqrt 2 * c + 1 ∧
      (lowPassCoef (Real.sqrt 2) c f).ampIn0 = 1 / (c * c + Real.sqrt 2 * c + 1) := by
  have h2 : Real.sqrt 2 * Real.sqrt 2 = 2 := Real.mul_self_sqrt (by norm_num)
  exact ⟨by nlinarith [sq_nonneg (c + Real.sqrt 2 / 2)], rfl⟩
/-- C18 (the code at the failing input): over the ideal sine table of 16
entries, a freshly constructed filter whose envelope yields the level 3 and then
the level 0 recomputes on the first call (index 3, reading the offsets 7 and
3) and again on the second call (index 0, different from the cached 3, reading
the offsets 4 and 0); the divisor of the second recomputation is the table
entry at offset 0, which is `sin 0 = 0`. -/
theorem recompute_at_index_zero_divides_by_zero :
    ((freshOver (fun j : Int => Real.sin (2 * Real.pi * (j : ℝ) / 16)) [3, 0]).run
        (scriptEnvOver ℝ) (Real.sqrt 2) [1, 1]).1.map (fun r => (r.branch, r.reads)) =
      [(Branch.recompute, [7, 3]), (Branch.recompute, [4, 0])] ∧
    (freshOver (fun j : Int => Real.sin (2 * Real.pi * (j : ℝ) / 16)) [3, 0]).sinTable 0 = 0 := by
  have hf3 : castInt ((3 : ℝ) * (16 / 2 / 8)) = 3 := by
    have : (3 : ℝ) * (16 / 2 / 8) = ((3 : Int) : ℝ) := by norm_num
    rw [this]
    simp [castInt]
  have hf0 : castInt (0 : ℝ) = 0 := by
    simp [castInt]
  constructor
  · simp [DynFilterLP.run, DynFilterLP.SampleTraced, freshOver, DynFilterLP.new,
      scriptEnvOver, hf3, hf0, Int.tdiv]
  · simp [freshOver, DynFilterLP.new]

end Claims

end BasicSynth
